import Mathlib

set_option maxRecDepth 10000

/-!
Verification of the CLAHE golden-model numeric pipeline of this repository.

The definitions below are shallow embeddings of the Python golden model:
`projects/64tile_optimized/scripts/verify_cdf_golden.py` (class CLAHEGoldenModel,
method calculate_cdf: histogram clipping, excess redistribution, cumulative sum,
and CDF normalization), `projects/16tile/scripts/verify_fixed_weights.py`
(calc_weight_fixed: the fixed-point tile-center-relative blend weight), and
`projects/16tile/scripts/debug_interp_weights.py` (test_bilinear_interp: the
nested truncating bilinear blend).

Histograms are lists of 256 natural-number counts. Machine-width remarks: the
Python model keeps counts in numpy int32 and cumulative sums in int64; for the
count magnitudes the model is run on (tile_pixels = 14400, clip limits up to
10000) no wraparound occurs, so natural numbers model them exactly. The one
genuinely machine-dependent step is the final `.astype(np.uint8)` applied to the
float64 normalized CDF: for the integer magnitudes reachable here the float64
product and division are computed exactly enough that truncation of the double
equals truncation (toward zero) of the exact rational, and the C-style cast of
the truncated value into uint8 reduces it modulo 256 (x86 behavior; the cast of
a negative double is undefined behavior in C and is the subject of two of the
findings below). This cast model is `npCastU8` composed with `Int.tdiv`.
-/

/-- Step 1 of CLAHEGoldenModel.calculate_cdf: a single bin clipped to the
limit `c` (lines 40-43 of verify_cdf_golden.py). -/
def clipBin (c v : ℕ) : ℕ := if v > c then c else v

/-- The clipped histogram before redistribution (the loop at lines 39-43). -/
def clipHist (h : List ℕ) (c : ℕ) : List ℕ := h.map (clipBin c)

/-- The excess accumulated while clipping (`total_excess`, lines 37-42). -/
def totalExcess (h : List ℕ) (c : ℕ) : ℕ :=
  (h.map (fun v => if v > c then v - c else 0)).sum

/-- The redistribution loop of calculate_cdf (lines 49-53), carrying the
running bin index `i`: every bin gains `avg`, and bins with index below `r`
gain one more. -/
def redistributeFrom (avg r : ℕ) : ℕ → List ℕ → List ℕ
  | _, [] => []
  | i, v :: vs => (v + avg + (if i < r then 1 else 0)) :: redistributeFrom avg r (i + 1) vs

/-- Step 2 of calculate_cdf: redistribute the excess `e` with
`avg_increment = e / 256` and `remainder = e % 256` (lines 46-53). -/
def redistribute (l : List ℕ) (e : ℕ) : List ℕ :=
  redistributeFrom (e / 256) (e % 256) 0 l

/-- The ContrastLimiter stage: clip every bin, then redistribute the excess
(lines 36-53 of verify_cdf_golden.py). -/
def contrastLimiter (h : List ℕ) (c : ℕ) : List ℕ :=
  redistribute (clipHist h c) (totalExcess h c)

/-- Running cumulative sum with accumulator, the embedding of `np.cumsum`
(line 56). -/
def cumsumFrom (acc : ℕ) : List ℕ → List ℕ
  | [] => []
  | v :: vs => (acc + v) :: cumsumFrom (acc + v) vs

/-- Step 3 of calculate_cdf: the cumulative distribution of the clipped
histogram (line 56). -/
def cumsum (l : List ℕ) : List ℕ := cumsumFrom 0 l

/-- The `cdf_min` computation (lines 60-66): the first strictly positive
cumulative value, defaulting to `cdf[0]` when every cumulative value is zero. -/
def cdfMin (cdf : List ℕ) : ℕ :=
  match cdf.find? (fun v => decide (0 < v)) with
  | some v => v
  | none => cdf.headD 0

/-- The C-style cast of the truncated float64 into `np.uint8` (line 75):
reduction modulo 256, as performed on x86. -/
def npCastU8 (q : ℤ) : ℕ := (q % 256).toNat

/-- One entry of the normalized CDF (line 75): the float64 expression
`(cdf[i] - cdf_min) * 255.0 / (total - cdf_min)` truncates, for the integer
magnitudes of this model, exactly like toward-zero integer division of the
exact products, followed by the uint8 cast. -/
def normEntry (cmin total v : ℕ) : ℕ :=
  npCastU8 (Int.tdiv (((v : ℤ) - (cmin : ℤ)) * 255) ((total : ℤ) - (cmin : ℤ)))

/-- Step 4 of calculate_cdf (lines 58-77): all zeros when
`total == cdf_min or total == 0`, otherwise the normalized CDF entries. -/
def normalizeCdf (ch : List ℕ) : List ℕ :=
  if (cumsum ch).getLastD 0 = cdfMin (cumsum ch) ∨ (cumsum ch).getLastD 0 = 0 then
    List.replicate 256 0
  else (cumsum ch).map (normEntry (cdfMin (cumsum ch)) ((cumsum ch).getLastD 0))

/-- CLAHEGoldenModel.calculate_cdf in full: contrast limiting followed by CDF
normalization. -/
def calculate_cdf (h : List ℕ) (c : ℕ) : List ℕ :=
  normalizeCdf (contrastLimiter h c)

/-- One entry of the CDF normalization as the specification words it
(spec section 4.4): `floor((cdf[i] - cdf_min) * 255 / (total - cdf_min))`,
clamped into [0, 255]. Named Spec because it follows the specification text,
for comparison against the code-derived `normEntry`. -/
def normEntrySpec (cmin total v : ℕ) : ℕ :=
  (max 0 (min 255 (Int.fdiv (((v : ℤ) - (cmin : ℤ)) * 255) ((total : ℤ) - (cmin : ℤ))))).toNat

/-- The CDF normalization stage as the specification words it: same degenerate
branch as the code, clamped floor entries otherwise. -/
def normalizeCdfSpec (ch : List ℕ) : List ℕ :=
  if (cumsum ch).getLastD 0 = cdfMin (cumsum ch) ∨ (cumsum ch).getLastD 0 = 0 then
    List.replicate 256 0
  else (cumsum ch).map (normEntrySpec (cdfMin (cumsum ch)) ((cumsum ch).getLastD 0))

/-- A 256-bin histogram that is empty below bin 1 and holds 50 counts in each
of bins 1 and 2: a concrete sparse tile. -/
def histSparse : List ℕ := 0 :: 50 :: 50 :: List.replicate 253 0

/-- A 256-bin histogram with 300 counts concentrated in bin 0. -/
def histPeak : List ℕ := 300 :: List.replicate 255 0

/-- A 256-bin histogram that is zero everywhere except bin `b`, which holds
`n` counts (for `b < 256`). -/
def singleBin (b n : ℕ) : List ℕ := List.replicate b 0 ++ n :: List.replicate (255 - b) 0

/-- The sign-preserving round-toward-zero right shift by 10 of
verify_fixed_weights.py lines 26-30 and 34-36: `mult >> 10` overridden with
`-((-mult) >> 10)` when `mult` is negative. -/
def shiftTzTen (m : ℤ) : ℤ :=
  if m < 0 then -(((-m).toNat >>> 10 : ℕ) : ℤ) else ((m.toNat >>> 10 : ℕ) : ℤ)

/-- The saturation of the weight into [0, 255] (lines 40-45). -/
def saturate255 (r : ℤ) : ℤ :=
  if r < 0 then 0 else if r > 255 then 255 else r

/-- calc_weight_fixed of verify_fixed_weights.py: multiplier 819 on the x axis
and 1456 on the y axis, shift by 10 toward zero, recentered on 128, then
saturated. The same formula appears as calc_current_weight in
analyze_remaining_artifacts.py. -/
def calc_weight_fixed (d : ℤ) (isX : Bool) : ℤ :=
  if isX then saturate255 (128 + shiftTzTen (d * 819))
  else saturate255 (128 + shiftTzTen (d * 1456))

/-- The nested truncating bilinear blend of debug_interp_weights.py lines
177-181: two horizontal weighted averages, then one vertical, each truncated
by a plain right shift by 8. -/
def bilinearInterp (wx wy v_tl v_tr v_bl v_br : ℕ) : ℕ :=
  ((256 - wy) * (((256 - wx) * v_tl + wx * v_tr) >>> 8) +
    wy * (((256 - wx) * v_bl + wx * v_br) >>> 8)) >>> 8

/-- Clipping one bin and the excess it contributes recompose the original
count. -/
theorem clipBin_add_excess (c v : ℕ) :
    clipBin c v + (if v > c then v - c else 0) = v := by
  unfold clipBin
  split_ifs <;> omega

/-- The clipped histogram and the accumulated excess together conserve the
total count. -/
theorem clipHist_sum_add_totalExcess (h : List ℕ) (c : ℕ) :
    (clipHist h c).sum + totalExcess h c = h.sum := by
  induction h with
  | nil => simp [clipHist, totalExcess]
  | cons v vs ih =>
    simp only [clipHist, totalExcess, List.map_cons, List.sum_cons] at *
    have hv := clipBin_add_excess c v
    omega

/-- Sum of the redistribution loop started at index `i`: each element gains
`avg`, and the indices of the window [i, i + length) that lie below `r` gain
one more. -/
theorem redistributeFrom_sum (avg r : ℕ) : ∀ (l : List ℕ) (i : ℕ),
    (redistributeFrom avg r i l).sum + min r i = l.sum + l.length * avg + min r (i + l.length) := by
  intro l
  induction l with
  | nil => intro i; simp [redistributeFrom]
  | cons v vs ih =>
    intro i
    have h := ih (i + 1)
    simp only [redistributeFrom, List.sum_cons, List.length_cons]
    have hm : (vs.length + 1) * avg = vs.length * avg + avg := by ring
    rw [hm]
    split_ifs with hir <;> omega

/-- On a 256-bin list the redistribution of excess `e` adds exactly `e` to the
total. -/
theorem redistribute_sum (l : List ℕ) (e : ℕ) (hl : l.length = 256) :
    (redistribute l e).sum = l.sum + e := by
  have h := redistributeFrom_sum (e / 256) (e % 256) l 0
  have hr : e % 256 < 256 := Nat.mod_lt _ (by omega)
  have hd := Nat.div_add_mod e 256
  unfold redistribute
  rw [hl] at h
  omega

/-- Claim C1: for every 256-bin histogram and every positive clip limit, the
clip-and-redistribute pass of the ContrastLimiter conserves the histogram
total exactly. -/
theorem contrastLimiter_sum_conserved (h : List ℕ) (c : ℕ)
    (hl : h.length = 256) (hc : 0 < c) :
    (contrastLimiter h c).sum = h.sum := by
  unfold contrastLimiter
  rw [redistribute_sum _ _ (by simp [clipHist, hl])]
  have := clipHist_sum_add_totalExcess h c
  omega

/-- Witness for claim C1 at a concrete histogram: 256 bins of one count each,
clip limit 2. -/
theorem contrastLimiter_sum_conserved_witness :
    (List.replicate 256 1).length = 256 ∧ 0 < 2 ∧
      (contrastLimiter (List.replicate 256 1) 2).sum = (List.replicate 256 1).sum :=
  ⟨by decide, by decide, contrastLimiter_sum_conserved (List.replicate 256 1) 2 (by decide) (by decide)⟩

/-- Index characterization of the redistribution loop started at `i`: the
element at position `j` gains `avg`, plus one when its bin index `i + j` lies
below `r`. -/
theorem redistributeFrom_getD (avg r : ℕ) : ∀ (l : List ℕ) (i j : ℕ), j < l.length →
    (redistributeFrom avg r i l).getD j 0 = l.getD j 0 + avg + (if i + j < r then 1 else 0) := by
  intro l
  induction l with
  | nil => intro i j hj; simp at hj
  | cons v vs ih =>
    intro i j hj
    cases j with
    | zero => simp [redistributeFrom]
    | succ k =>
      have hk : k < vs.length := by simpa using hj
      have hrec := ih (i + 1) k hk
      simp only [redistributeFrom, List.getD_cons_succ]
      rw [hrec, show i + 1 + k = i + (k + 1) from by omega]

/-- Claim C2: the ContrastLimiter redistributes the accumulated excess exactly
as described: bin `i` of the output is the clipped bin plus
`total_excess / 256`, plus one extra unit precisely when `i` is below
`total_excess % 256`. -/
theorem contrastLimiter_redistribution_exact (h : List ℕ) (c : ℕ) (i : ℕ)
    (hl : h.length = 256) (hc : 0 < c) (hi : i < 256) :
    (contrastLimiter h c).getD i 0 =
      (clipHist h c).getD i 0 + totalExcess h c / 256 +
        (if i < totalExcess h c % 256 then 1 else 0) := by
  unfold contrastLimiter redistribute
  rw [redistributeFrom_getD _ _ _ 0 i (by simp [clipHist, hl]; omega)]
  simp

/-- Witness for claim C2 at histogram histPeak, clip limit 1, bin 0. -/
theorem contrastLimiter_redistribution_exact_witness :
    histPeak.length = 256 ∧ 0 < 1 ∧ 0 < 256 ∧
      (contrastLimiter histPeak 1).getD 0 0 =
        (clipHist histPeak 1).getD 0 0 + totalExcess histPeak 1 / 256 +
          (if 0 < totalExcess histPeak 1 % 256 then 1 else 0) :=
  ⟨by decide, by decide, by decide,
    contrastLimiter_redistribution_exact histPeak 1 0 (by decide) (by decide) (by decide)⟩

/-- Counterexample to claim C6 as stated: with clip limit 1 and 300 counts in
bin 0 of histPeak, redistribution lifts bin 0 to 3, above the clip limit. -/
theorem contrastLimiter_bin_above_limit :
    histPeak.length = 256 ∧ 0 < 1 ∧ ¬ ((contrastLimiter histPeak 1).getD 0 0 ≤ 1) := by
  decide

/-- Amended claim C6: before redistribution every clipped bin is at most the
clip limit; after redistribution every bin is at most the clip limit plus
`avg_increment + 1`. -/
theorem contrastLimiter_bin_bound_amended (h : List ℕ) (c : ℕ) (i : ℕ)
    (hc : 0 < c) (hi : i < h.length) :
    (clipHist h c).getD i 0 ≤ c ∧
      (contrastLimiter h c).getD i 0 ≤ c + totalExcess h c / 256 + 1 := by
  have hclip : (clipHist h c).getD i 0 ≤ c := by
    have hilen : i < (clipHist h c).length := by simpa [clipHist] using hi
    rw [List.getD_eq_getElem _ _ hilen]
    simp only [clipHist, List.getElem_map]
    unfold clipBin
    split_ifs with hgt
    · omega
    · omega
  refine ⟨hclip, ?_⟩
  unfold contrastLimiter redistribute
  rw [redistributeFrom_getD _ _ _ 0 i (by simpa [clipHist] using hi)]
  split_ifs <;> omega

/-- Witness for the amended claim C6 at histPeak, clip limit 1, bin 0. -/
theorem contrastLimiter_bin_bound_amended_witness :
    0 < 1 ∧ 0 < histPeak.length ∧
      (clipHist histPeak 1).getD 0 0 ≤ 1 ∧
        (contrastLimiter histPeak 1).getD 0 0 ≤ 1 + totalExcess histPeak 1 / 256 + 1 :=
  ⟨by decide, by decide,
    (contrastLimiter_bin_bound_amended histPeak 1 0 (by decide) (by decide)).1,
    (contrastLimiter_bin_bound_amended histPeak 1 0 (by decide) (by decide)).2⟩

/-- Cumulative sums across a prefix of empty bins repeat the accumulator. -/
theorem cumsumFrom_append_zeros (acc : ℕ) : ∀ (n : ℕ) (xs : List ℕ),
    cumsumFrom acc (List.replicate n 0 ++ xs) = List.replicate n acc ++ cumsumFrom acc xs := by
  intro n
  induction n with
  | zero => intro xs; simp
  | succ m ih =>
    intro xs
    simp only [List.replicate_succ, List.cons_append, cumsumFrom, Nat.add_zero, List.append_eq]
    rw [ih]

/-- Cumulative sums of a run of empty bins repeat the accumulator. -/
theorem cumsumFrom_zeros (acc m : ℕ) :
    cumsumFrom acc (List.replicate m 0) = List.replicate m acc := by
  have h := cumsumFrom_append_zeros acc m []
  simpa [cumsumFrom] using h

/-- A search whose predicate rejects zero skips a prefix of zeros. -/
theorem find?_append_zeros (p : ℕ → Bool) (hp : p 0 = false) : ∀ (n : ℕ) (xs : List ℕ),
    List.find? p (List.replicate n 0 ++ xs) = List.find? p xs := by
  intro n
  induction n with
  | zero => intro xs; simp
  | succ m ih =>
    intro xs
    simp only [List.replicate_succ, List.cons_append, List.find?_cons, hp]
    exact ih xs

/-- The default-last of a list with a nonempty right append part is the
default-last of that part. -/
theorem getLastD_append_cons (y : ℕ) (ys : List ℕ) : ∀ (xs : List ℕ) (d : ℕ),
    (xs ++ y :: ys).getLastD d = (y :: ys).getLastD d := by
  intro xs
  induction xs with
  | nil => intro d; rfl
  | cons x xs ih =>
    intro d
    rw [List.cons_append, List.getLastD_cons, ih, List.getLastD_cons, List.getLastD_cons]

/-- The default-last of a constant nonempty list is that constant. -/
theorem getLastD_cons_replicate (x : ℕ) : ∀ (m : ℕ) (d : ℕ),
    (x :: List.replicate m x).getLastD d = x := by
  intro m
  induction m with
  | zero => intro d; rfl
  | succ k ih =>
    intro d
    rw [List.getLastD_cons, List.replicate_succ]
    exact ih x

/-- The cumulative distribution of a single-bin histogram: zeros up to the
populated bin, then the full count. -/
theorem cumsum_singleBin (b n : ℕ) :
    cumsum (singleBin b n) = List.replicate b 0 ++ n :: List.replicate (255 - b) n := by
  unfold cumsum singleBin
  rw [cumsumFrom_append_zeros]
  simp [cumsumFrom, cumsumFrom_zeros]

/-- A single-bin histogram normalizes to the all-zero table: its cumulative
total equals its first positive cumulative value (or the histogram is empty). -/
theorem normalizeCdf_singleBin (b n : ℕ) :
    normalizeCdf (singleBin b n) = List.replicate 256 0 := by
  unfold normalizeCdf
  rw [cumsum_singleBin]
  rcases Nat.eq_zero_or_pos n with hn | hn
  · subst hn
    rw [if_pos]
    right
    rw [getLastD_append_cons]
    exact getLastD_cons_replicate 0 _ 0
  · rw [if_pos]
    left
    rw [getLastD_append_cons, getLastD_cons_replicate]
    unfold cdfMin
    rw [find?_append_zeros _ (by simp), List.find?_cons_of_pos _ (by simpa using hn)]

/-- Claim C9: whenever the clipped histogram entering normalization has its
cumulative total equal to its first positive cumulative value, or a zero
total, calculate_cdf returns the all-zero 256-entry table; and the CDF
normalization of any histogram populated in a single bin (the degenerate
full tile) is the all-zero table. -/
theorem calculate_cdf_degenerate_zero (h : List ℕ) (c b n : ℕ) (hb : b < 256)
    (hdeg : (cumsum (contrastLimiter h c)).getLastD 0 = cdfMin (cumsum (contrastLimiter h c)) ∨
      (cumsum (contrastLimiter h c)).getLastD 0 = 0) :
    calculate_cdf h c = List.replicate 256 0 ∧
      normalizeCdf (singleBin b n) = List.replicate 256 0 := by
  refine ⟨?_, normalizeCdf_singleBin b n⟩
  unfold calculate_cdf normalizeCdf
  rw [if_pos hdeg]

/-- Witness for claim C9: the empty histogram with clip limit 1, and the
single-bin histogram holding all 14400 tile pixels in bin 7. -/
theorem calculate_cdf_degenerate_zero_witness :
    (7 < 256 ∧
      ((cumsum (contrastLimiter (List.replicate 256 0) 1)).getLastD 0 =
          cdfMin (cumsum (contrastLimiter (List.replicate 256 0) 1)) ∨
        (cumsum (contrastLimiter (List.replicate 256 0) 1)).getLastD 0 = 0)) ∧
      calculate_cdf (List.replicate 256 0) 1 = List.replicate 256 0 ∧
        normalizeCdf (singleBin 7 14400) = List.replicate 256 0 :=
  ⟨⟨by decide, by decide⟩,
    calculate_cdf_degenerate_zero (List.replicate 256 0) 1 7 14400 (by decide) (by decide)⟩

/-- Claim C3 finding (code bug): on the sparse histogram with empty bin 0, the
golden model leaves the negative normalized value at bin 0 unclamped, and the
uint8 cast wraps it to 1, while the clamped floor formula of the
specification yields 0 there; the produced table differs from the clamped
one. The cast of a negative float64 is undefined behavior in C; the wrap
modeled here is the x86 outcome. -/
theorem calculate_cdf_unclamped_below_first_bin :
    (calculate_cdf histSparse 500).getD 0 0 = 1 ∧
      (normalizeCdfSpec (contrastLimiter histSparse 500)).getD 0 0 = 0 ∧
      calculate_cdf histSparse 500 ≠ normalizeCdfSpec (contrastLimiter histSparse 500) := by
  decide

/-- Claim C4 finding (code bug): on the sparse histogram with empty bin 0 the
produced table starts 1, 0, so it is not monotonic non-decreasing. -/
theorem calculate_cdf_not_monotone :
    (calculate_cdf histSparse 500).getD 0 0 = 1 ∧
      (calculate_cdf histSparse 500).getD 1 0 = 0 ∧
      ¬ ((calculate_cdf histSparse 500).getD 0 0 ≤ (calculate_cdf histSparse 500).getD 1 0) := by
  decide

/-- Counterexample to claim C5 as stated: at the negative half-tile offset the
x-axis weight does not reach the saturation bound 0 (it stops at 1, because
the shift rounds toward zero). -/
theorem calc_weight_fixed_neg_edge_not_zero : calc_weight_fixed (-160) true ≠ 0 := by
  decide

/-- Amended claim C5: at the positive half-tile offset both axis weights reach
255 exactly; at the negative half-tile offset both stop one fixed-point
rounding unit short of 0, at 1. -/
theorem calc_weight_fixed_edge_values :
    calc_weight_fixed 160 true = 255 ∧ calc_weight_fixed (-160) true = 1 ∧
      calc_weight_fixed 90 false = 255 ∧ calc_weight_fixed (-90) false = 1 := by
  decide

/-- The round-toward-zero shift by 10 is monotone non-decreasing. -/
theorem shiftTzTen_mono {m1 m2 : ℤ} (h : m1 ≤ m2) : shiftTzTen m1 ≤ shiftTzTen m2 := by
  unfold shiftTzTen
  simp only [Nat.shiftRight_eq_div_pow]
  norm_num
  split_ifs <;> omega

/-- The saturation into [0, 255] is monotone non-decreasing. -/
theorem saturate255_mono {a b : ℤ} (h : a ≤ b) : saturate255 a ≤ saturate255 b := by
  unfold saturate255
  split_ifs <;> omega

/-- Claim C7: the fixed-point weight is exactly 128 at offset 0 on both axes,
and is monotone non-decreasing in the signed offset on both axes. -/
theorem calc_weight_fixed_center_and_mono :
    (∀ ax : Bool, calc_weight_fixed 0 ax = 128) ∧
      ∀ (ax : Bool) (d1 d2 : ℤ), d1 ≤ d2 →
        calc_weight_fixed d1 ax ≤ calc_weight_fixed d2 ax := by
  refine ⟨fun ax => by cases ax <;> decide, fun ax d1 d2 h => ?_⟩
  cases ax with
  | false =>
    have hm : shiftTzTen (d1 * 1456) ≤ shiftTzTen (d2 * 1456) := shiftTzTen_mono (by omega)
    show saturate255 (128 + shiftTzTen (d1 * 1456)) ≤ saturate255 (128 + shiftTzTen (d2 * 1456))
    exact saturate255_mono (by omega)
  | true =>
    have hm : shiftTzTen (d1 * 819) ≤ shiftTzTen (d2 * 819) := shiftTzTen_mono (by omega)
    show saturate255 (128 + shiftTzTen (d1 * 819)) ≤ saturate255 (128 + shiftTzTen (d2 * 819))
    exact saturate255_mono (by omega)

/-- Witness for claim C7: center value on the x axis, and monotonicity between
offsets -5 and 3 on the x axis. -/
theorem calc_weight_fixed_center_and_mono_witness :
    calc_weight_fixed 0 true = 128 ∧ (-5 : ℤ) ≤ 3 ∧
      calc_weight_fixed (-5) true ≤ calc_weight_fixed 3 true :=
  ⟨calc_weight_fixed_center_and_mono.1 true, by decide,
    calc_weight_fixed_center_and_mono.2 true (-5) 3 (by decide)⟩

/-- Claim C8: across a horizontal tile seam with tile width 320 and center
160, the weight at the rightmost local column of the left tile (offset 159)
is within one unit of the saturation bound 255, and the weight at the
leftmost local column of the right tile (offset -160) is within one unit of
the saturation bound 0. -/
theorem calc_weight_fixed_seam_within_one_unit :
    255 - calc_weight_fixed 159 true ≤ 1 ∧ calc_weight_fixed (-160) true - 0 ≤ 1 := by
  decide

/-- A truncating 8-bit weighted average of two values at most 255, with a
weight at most 256, is at most 255. -/
theorem blend_div_le (w x y : ℕ) (hw : w ≤ 256) (hx : x ≤ 255) (hy : y ≤ 255) :
    ((256 - w) * x + w * y) / 256 ≤ 255 := by
  have h1 : (256 - w) * x ≤ (256 - w) * 255 := Nat.mul_le_mul_left _ hx
  have h2 : w * y ≤ w * 255 := Nat.mul_le_mul_left _ hy
  have h3 : (256 - w) * 255 + w * 255 = 256 * 255 := by
    rw [← Nat.add_mul]
    congr 1
    omega
  have h4 : (256 - w) * x + w * y ≤ 256 * 255 := by omega
  have h5 := Nat.div_le_div_right (c := 256) h4
  omega

/-- Claim C10: the interpolated output is exactly the two nested truncating
weighted averages (plain truncating division by 256 for each right shift by
8), and for weights and CDF lookups in [0, 255] the result lies in [0, 255]. -/
theorem bilinearInterp_eq_and_le (wx wy a b c d : ℕ)
    (hwx : wx ≤ 255) (hwy : wy ≤ 255)
    (ha : a ≤ 255) (hb : b ≤ 255) (hc : c ≤ 255) (hd : d ≤ 255) :
    bilinearInterp wx wy a b c d =
      ((256 - wy) * (((256 - wx) * a + wx * b) / 256) +
        wy * (((256 - wx) * c + wx * d) / 256)) / 256 ∧
      bilinearInterp wx wy a b c d ≤ 255 := by
  have heq : bilinearInterp wx wy a b c d =
      ((256 - wy) * (((256 - wx) * a + wx * b) / 256) +
        wy * (((256 - wx) * c + wx * d) / 256)) / 256 := by
    simp [bilinearInterp, Nat.shiftRight_eq_div_pow]
  refine ⟨heq, ?_⟩
  rw [heq]
  have htop := blend_div_le wx a b (by omega) ha hb
  have hbot := blend_div_le wx c d (by omega) hc hd
  exact blend_div_le wy _ _ (by omega) htop hbot

/-- Witness for claim C10 at concrete weights 200 and 100 and the four CDF
lookups 100, 150, 120, 180 used by test_bilinear_interp. -/
theorem bilinearInterp_eq_and_le_witness :
    (200 ≤ 255 ∧ 100 ≤ 255 ∧ 100 ≤ 255 ∧ 150 ≤ 255 ∧ 120 ≤ 255 ∧ 180 ≤ 255) ∧
      bilinearInterp 200 100 100 150 120 180 =
        ((256 - 100) * (((256 - 200) * 100 + 200 * 150) / 256) +
          100 * (((256 - 200) * 120 + 200 * 180) / 256)) / 256 ∧
        bilinearInterp 200 100 100 150 120 180 ≤ 255 :=
  ⟨⟨by decide, by decide, by decide, by decide, by decide, by decide⟩,
    bilinearInterp_eq_and_le 200 100 100 150 120 180
      (by decide) (by decide) (by decide) (by decide) (by decide) (by decide)⟩
